/-
Verification of the Lumina retrieval-augmented chat service.

Shallow embedding of the repository's Python sources:
  - document_utils.py : pdf_to_chunks (the word-window chunking loop)
  - faiss_utils.py    : build_faiss_index, search_index (flat inner-product index)
  - ollama_utils.py   : query_ollama and its API/subprocess fallback structure
  - app.py            : upload_pdf, ask, greet handlers and the JSON/source
                        extraction helpers

Python strings are modelled as List Char; Python ints as Int (Nat where the
value is provably nonnegative); fallible calls to external collaborators
(PDF reader, embedding model, HTTP API, subprocess) are modelled as explicit
Option/Except-valued inputs.  Embedding vectors are modelled over the reals.
-/
import Mathlib

/-! ## Python string primitives over List Char -/

/-- The default whitespace set of Python's str.split / str.strip. -/
def pyIsSpace (c : Char) : Bool :=
  c = ' ' || c = '\t' || c = '\n' || c = '\r' || c = '\x0b' || c = '\x0c'

/-- Python s.strip() : drop whitespace at both ends. -/
def pyStrip (s : List Char) : List Char :=
  ((s.dropWhile pyIsSpace).reverse.dropWhile pyIsSpace).reverse

/-- Drop leading whitespace only (the lexer-style skip used by json parsing). -/
def skipWsL (s : List Char) : List Char := s.dropWhile pyIsSpace

/-- Python " ".join(ws) over char-list words. -/
def joinSpace (ws : List (List Char)) : List Char :=
  (ws.intersperse [' ']).flatten

/-- Contiguous slice words[start : start+len] for nonnegative bounds. -/
def sliceN (xs : List α) (start len : Nat) : List α :=
  (xs.drop start).take len

/-- Python slice xs[start:stop] with full int semantics (negative indices count
from the end, everything is clamped into range). -/
def pySlice (xs : List α) (start stop : Int) : List α :=
  let n := xs.length
  let s : Nat := if start < 0 then ((n : Int) + start).toNat else min start.toNat n
  let e : Nat := if stop < 0 then ((n : Int) + stop).toNat else min stop.toNat n
  (xs.drop s).take (e - s)

/-- Python text.find(sub, from): auxiliary scan returning the absolute index. -/
def pyFindFrom (sub : List Char) : List Char → Nat → Option Nat
  | [], i => if sub = [] then some i else none
  | c :: rest, i =>
    if sub.isPrefixOf (c :: rest) then some i else pyFindFrom sub rest (i + 1)

/-- Python text.find(sub, start): -1 when absent, else the smallest match
position that is at least start. -/
def pyFind (text sub : List Char) (start : Nat) : Int :=
  match pyFindFrom sub (text.drop start) start with
  | some i => (i : Int)
  | none => -1

/-! ## Chunker (document_utils.pdf_to_chunks, lines 38-56)

Text extraction from the PDF is done by the external PyMuPDF library; the
chunking loop itself operates on the whitespace-split word list, which is the
input of the model.  The loop is modelled with explicit fuel (the Python loop
has none; chunkLoop_terminates below shows that words.length + 1 fuel always
suffices, so pdf_to_chunks_words is the loop's semantics). -/

/-- step = chunk_size - overlap if chunk_size > overlap else chunk_size. -/
def stepOf (chunk_size overlap : Int) : Int :=
  if chunk_size > overlap then chunk_size - overlap else chunk_size

/-- One-to-one image of the Python while loop:
while i < len(words): chunk = " ".join(words[i:i+chunk_size]);
append it if chunk.strip() is nonempty; i += step; break if step <= 0. -/
def chunkLoop (words : List (List Char)) (chunk_size step : Int) :
    Nat → Nat → Option (List (List Char))
  | 0, _ => none
  | fuel + 1, i =>
    if i < words.length then
      let ct := joinSpace (pySlice words (i : Int) ((i : Int) + chunk_size))
      let rest :=
        if step ≤ 0 then some [] else chunkLoop words chunk_size step fuel (i + step.toNat)
      match rest with
      | none => none
      | some r => some (if pyStrip ct = [] then r else ct :: r)
    else some []

/-- pdf_to_chunks restricted to its word-chunking part (the PDF reading and
whitespace split are external); words.length + 1 fuel is always sufficient. -/
def pdf_to_chunks_words (words : List (List Char)) (chunk_size overlap : Int) :
    List (List Char) :=
  (chunkLoop words chunk_size (stepOf chunk_size overlap) (words.length + 1) 0).getD []

/-- Number of chunks a sliding window of positive step produces on n words. -/
def numChunksSpec (n step : Nat) : Nat := (n + step - 1) / step

/-- A word is a token of str.split(): nonempty and whitespace-free. -/
def IsTokenB (w : List Char) : Bool := !w.isEmpty && w.all (fun c => !pyIsSpace c)

/-! ## Embeddings and the flat inner-product index (faiss_utils.py)

The faiss library is an external collaborator; IndexFlatIP is modelled from
its documented contract: an exact flat index over inner product, where
search(q, k) returns the k highest-scoring stored vectors in decreasing score
order, padding with index -1 when fewer than k vectors are stored (ties are
modelled as broken by the lower index).  faiss.normalize_L2 divides a vector
by its euclidean norm.  Vectors are modelled over the reals. -/

/-- Inner product of two vectors (componentwise product, summed). -/
def dotL (u v : List ℝ) : ℝ := (u.zipWith (· * ·) v).sum

/-- Euclidean norm. -/
noncomputable def l2norm (v : List ℝ) : ℝ := Real.sqrt (dotL v v)

/-- faiss.normalize_L2: divide every component by the euclidean norm. -/
noncomputable def normalizeL2 (v : List ℝ) : List ℝ := v.map (· / l2norm v)

/-- Cosine similarity of two (unnormalized) vectors. -/
noncomputable def cosSim (u v : List ℝ) : ℝ := dotL u v / (l2norm u * l2norm v)

/-- Ranking order on (index, score) pairs: higher score first, ties broken by
lower index. -/
def better (a b : Nat × ℝ) : Prop := b.2 < a.2 ∨ (a.2 = b.2 ∧ a.1 ≤ b.1)

noncomputable instance : DecidableRel better := fun a b => by
  unfold better; infer_instance

instance : IsTotal (Nat × ℝ) better := by
  constructor
  intro a b
  rcases lt_trichotomy a.2 b.2 with h | h | h
  · exact Or.inr (Or.inl h)
  · rcases Nat.le_total a.1 b.1 with h' | h'
    · exact Or.inl (Or.inr ⟨h, h'⟩)
    · exact Or.inr (Or.inr ⟨h.symm, h'⟩)
  · exact Or.inl (Or.inl h)

instance : IsTrans (Nat × ℝ) better := by
  constructor
  intro a b c hab hbc
  rcases hab with h1 | ⟨h1, h1'⟩ <;> rcases hbc with h2 | ⟨h2, h2'⟩
  · exact Or.inl (h2.trans h1)
  · exact Or.inl (h2 ▸ h1)
  · exact Or.inl (h1 ▸ h2)
  · exact Or.inr ⟨h1.trans h2, h1'.trans h2'⟩

/-- The documented result row of IndexFlatIP.search on a score list: indices
of the min(k, n) best scores in decreasing-score order, padded to length k
with -1. -/
noncomputable def faissTopK (scores : List ℝ) (k : Nat) : List Int :=
  ((List.insertionSort better scores.enum).take k).map (fun p => (p.1 : Int))
    ++ List.replicate (k - scores.length) (-1)

/-- The stored state of a flat inner-product index: the added vectors. -/
structure FaissIndexIP where
  vecs : List (List ℝ)

/-- build_faiss_index (faiss_utils.py lines 4-31): L2-normalize the embedding
matrix, then add it to a fresh IndexFlatIP. -/
noncomputable def build_faiss_index (embeddings : List (List ℝ)) : FaissIndexIP :=
  ⟨embeddings.map normalizeL2⟩

/-- The inner-product score row the index computes for a (normalized) query. -/
noncomputable def scoresOf (index : FaissIndexIP) (query : List ℝ) : List ℝ :=
  index.vecs.map (dotL (normalizeL2 query))

/-- search_index (faiss_utils.py lines 33-57): L2-normalize the query, search
the index, return the first (only) result row. -/
noncomputable def search_index (index : FaissIndexIP) (query_embedding : List ℝ)
    (top_k : Nat) : List Int :=
  faissTopK (scoresOf index query_embedding) top_k

/-! ## JSON values and a model of Python's json.loads

json is the Python standard library (external); jsonLoads models its
behaviour on the JSON fragment the handlers exchange: null, booleans,
integer numbers, strings (with single-character escapes), arrays and
objects, with arbitrary surrounding whitespace.  Floating-point literals
are outside the model. -/

inductive JVal where
  | jnull : JVal
  | jbool : Bool → JVal
  | jnum : Int → JVal
  | jstr : List Char → JVal
  | jarr : List JVal → JVal
  | jobj : List (List Char × JVal) → JVal

/-- Read a JSON string body after the opening quote; returns content and rest. -/
def parseStrAux : List Char → Option (List Char × List Char)
  | [] => none
  | c :: rest =>
    if c = '"' then some ([], rest)
    else if c = '\\' then
      match rest with
      | [] => none
      | e :: r2 =>
        let u : Char :=
          if e = 'n' then '\n' else if e = 't' then '\t'
          else if e = 'r' then '\r' else if e = 'b' then '\x08'
          else if e = 'f' then '\x0c' else e
        match parseStrAux r2 with
        | some (s, r) => some (u :: s, r)
        | none => none
    else
      match parseStrAux rest with
      | some (s, r) => some (c :: s, r)
      | none => none

/-- Digits to a natural number value. -/
def digitsVal (ds : List Char) : Nat :=
  ds.foldl (fun acc c => 10 * acc + (c.toNat - '0'.toNat)) 0

/-- Read an integer JSON number (optional minus sign, then digits). -/
def parseNum (s : List Char) : Option (Int × List Char) :=
  match s with
  | '-' :: rest =>
    let ds := rest.takeWhile Char.isDigit
    if ds = [] then none else some (-(digitsVal ds : Int), rest.drop ds.length)
  | _ =>
    let ds := s.takeWhile Char.isDigit
    if ds = [] then none else some ((digitsVal ds : Int), s.drop ds.length)

mutual

/-- Parse one JSON value from the front of the input (after whitespace). -/
def parseVal : Nat → List Char → Option (JVal × List Char)
  | 0, _ => none
  | fuel + 1, s =>
    match skipWsL s with
    | [] => none
    | c :: rest =>
      if c = 'n' then
        if ("ull".data).isPrefixOf rest then some (.jnull, rest.drop 3) else none
      else if c = 't' then
        if ("rue".data).isPrefixOf rest then some (.jbool true, rest.drop 3) else none
      else if c = 'f' then
        if ("alse".data).isPrefixOf rest then some (.jbool false, rest.drop 4) else none
      else if c = '"' then
        match parseStrAux rest with
        | some (str, r) => some (.jstr str, r)
        | none => none
      else if c = '[' then
        match skipWsL rest with
        | ']' :: r2 => some (.jarr [], r2)
        | _ =>
          match parseArrTail fuel rest with
          | some (xs, r) => some (.jarr xs, r)
          | none => none
      else if c = '\x7b' then
        match skipWsL rest with
        | '\x7d' :: r2 => some (.jobj [], r2)
        | _ =>
          match parseObjTail fuel rest with
          | some (kvs, r) => some (.jobj kvs, r)
          | none => none
      else if c = '-' ∨ c.isDigit then
        match parseNum (c :: rest) with
        | some (z, r) => some (.jnum z, r)
        | none => none
      else none

/-- Parse the elements of a nonempty array, up to and including the ']'. -/
def parseArrTail : Nat → List Char → Option (List JVal × List Char)
  | 0, _ => none
  | fuel + 1, s =>
    match parseVal fuel s with
    | none => none
    | some (v, r) =>
      match skipWsL r with
      | ',' :: r2 =>
        match parseArrTail fuel r2 with
        | some (xs, r3) => some (v :: xs, r3)
        | none => none
      | ']' :: r2 => some ([v], r2)
      | _ => none

/-- Parse the members of a nonempty object, up to and including the close brace. -/
def parseObjTail : Nat → List Char → Option (List (List Char × JVal) × List Char)
  | 0, _ => none
  | fuel + 1, s =>
    match skipWsL s with
    | '"' :: rest =>
      match parseStrAux rest with
      | none => none
      | some (key, r) =>
        match skipWsL r with
        | ':' :: r2 =>
          match parseVal fuel r2 with
          | none => none
          | some (v, r3) =>
            match skipWsL r3 with
            | ',' :: r4 =>
              match parseObjTail fuel r4 with
              | some (kvs, r5) => some ((key, v) :: kvs, r5)
              | none => none
            | '\x7d' :: r4 => some ([(key, v)], r4)
            | _ => none
        | _ => none
    | _ => none

end

/-- Model of json.loads: parse one value, require only whitespace afterwards. -/
def jsonLoads (s : List Char) : Option JVal :=
  match parseVal (s.length + 1) s with
  | some (v, rest) => if skipWsL rest = [] then some v else none
  | none => none

/-! ## Response parsing: _extract_json_span (app.py lines 78-141) -/

def startMarkerL : List Char := ("<<<JSON_START>>>").data
def endMarkerL : List Char := ("<<<JSON_END>>>").data

/-- The literal body of the fenced-block opening, backtick-backtick-backtick
followed by the letters json (matched case-insensitively below). -/
def fenceOpenL : List Char := ("\x60\x60\x60json").data

/-- The literal closing fence (three backticks). -/
def fenceCloseL : List Char := ("\x60\x60\x60").data

/-- Case-insensitive literal match of pat at the head of s. -/
def ciHeadMatch : List Char → List Char → Bool
  | [], _ => true
  | _ :: _, [] => false
  | p :: ps, c :: cs => p.toLower = c.toLower && ciHeadMatch ps cs

/-- Index of the first non-whitespace character at or after position p. -/
def skipWsIdx (text : List Char) (p : Nat) : Nat :=
  p + ((text.drop p).takeWhile pyIsSpace).length

/-- Lazy search for the group end of the fenced regex: the smallest e at or
after the given position where text[e] is a close brace and, after optional
whitespace, a closing fence follows. -/
def findLazyEnd (text : List Char) : Nat → Nat → Option Nat
  | 0, _ => none
  | fuel + 1, e =>
    if e < text.length then
      if text.getD e ' ' = '\x7d'
          && fenceCloseL.isPrefixOf (text.drop (skipWsIdx text (e + 1))) then
        some e
      else findLazyEnd text fuel (e + 1)
    else none

/-- re.search of the fenced pattern (backticks-json, optional whitespace, a
brace-group matched lazily, optional whitespace, closing backticks), with
IGNORECASE; scans match starts left to right.  Returns the group 1 span. -/
def fencedSearchFrom (text : List Char) : Nat → Nat → Option (Nat × Nat)
  | 0, _ => none
  | fuel + 1, m =>
    if m < text.length then
      if ciHeadMatch fenceOpenL (text.drop m) then
        let p := skipWsIdx text (m + fenceOpenL.length)
        if text.getD p ' ' = '\x7b' then
          match findLazyEnd text (text.length + 1) (p + 1) with
          | some e => some (p, e + 1)
          | none => fencedSearchFrom text fuel (m + 1)
        else fencedSearchFrom text fuel (m + 1)
      else fencedSearchFrom text fuel (m + 1)
    else none

def fencedSearch (text : List Char) : Option (Nat × Nat) :=
  fencedSearchFrom text (text.length + 1) 0

/-- Brace-depth walk (app.py lines 121-131): starting at the first open brace,
find the position where the depth returns to zero. -/
def findBraceEnd (text : List Char) : Nat → Nat → Int → Option Nat
  | 0, _, _ => none
  | fuel + 1, i, depth =>
    if i < text.length then
      let ch := text.getD i ' '
      let depth' := if ch = '\x7b' then depth + 1
        else if ch = '\x7d' then depth - 1 else depth
      if ch = '\x7d' && depth' = 0 then some i
      else findBraceEnd text fuel (i + 1) depth'
    else none

/-- Marker path (lines 89-101): if both markers occur, take the text strictly
between them, strip it and try to parse; on failure fall through. -/
def markerExtract (text : List Char) : Option (JVal × Nat × Nat) :=
  if pyFind text startMarkerL 0 ≠ -1 && pyFind text endMarkerL 0 ≠ -1 then
    let s := (pyFind text startMarkerL 0).toNat + startMarkerL.length
    let e := pyFind text endMarkerL s
    if e > (s : Int) then
      match jsonLoads (pyStrip (sliceN text s (e.toNat - s))) with
      | some v => some (v, s, e.toNat)
      | none => none
    else none
  else none

/-- Fenced path (lines 104-113): first regex match, parse group 1. -/
def fencedExtract (text : List Char) : Option (JVal × Nat × Nat) :=
  match fencedSearch text with
  | some (s, e) =>
    match jsonLoads (sliceN text s (e - s)) with
    | some v => some (v, s, e)
    | none => none
  | none => none

/-- Generic path (lines 115-141): first open brace, balanced-walk to its end,
parse that candidate. -/
def genericExtract (text : List Char) : Option (JVal × Nat × Nat) :=
  match pyFindFrom ['\x7b'] text 0 with
  | none => none
  | some first =>
    match findBraceEnd text (text.length + 1) first 0 with
    | none => none
    | some endi =>
      match jsonLoads (sliceN text first (endi + 1 - first)) with
      | some v => some (v, first, endi + 1)
      | none => none

/-- _extract_json_span (app.py lines 78-141): marker path, then fenced path,
then generic brace matching; (None, -1, -1) when everything fails. -/
def extract_json_span (text : List Char) : Option JVal × Int × Int :=
  match markerExtract text with
  | some (v, s, e) => (some v, (s : Int), (e : Int))
  | none =>
    match fencedExtract text with
    | some (v, s, e) => (some v, (s : Int), (e : Int))
    | none =>
      match genericExtract text with
      | some (v, s, e) => (some v, (s : Int), (e : Int))
      | none => (none, -1, -1)

/-! ## _extract_sources_from_text (app.py lines 144-158)

Models re.finditer of: the word Source (IGNORECASE), optional whitespace,
digits, optional whitespace, a colon or hyphen, optional whitespace, then a
greedy nonempty run of non-newline characters as group 2.  The final
optional-whitespace is greedy with backtracking: when only whitespace remains
it gives characters back until group 2 can take a non-newline character. -/

def notCRLF (c : Char) : Bool := !(c = '\n' || c = '\r')

/-- Backtracking tail of the pattern when only whitespace remains: give back
whitespace characters (rightmost first) until one is not a newline. -/
def backtrackCap (rest : List Char) : Nat → Option (List Char × List Char)
  | 0 => none
  | k + 1 =>
    match rest.drop k with
    | c :: _ =>
      if notCRLF c then
        let r2 := rest.drop k
        let cap := r2.takeWhile notCRLF
        some (cap, r2.drop cap.length)
      else backtrackCap rest k
    | [] => backtrackCap rest k

/-- Match optional whitespace then a nonempty non-newline capture. -/
def capTail (rest : List Char) : Option (List Char × List Char) :=
  let k := (rest.takeWhile pyIsSpace).length
  if k < rest.length then
    let r2 := rest.drop k
    let cap := r2.takeWhile notCRLF
    some (cap, r2.drop cap.length)
  else backtrackCap rest k

/-- Case-insensitive consume of a literal; returns the rest on success. -/
def ciConsume : List Char → List Char → Option (List Char)
  | [], s => some s
  | _ :: _, [] => none
  | p :: ps, c :: cs => if p.toLower = c.toLower then ciConsume ps cs else none

/-- Try the whole Source-N pattern at the head of s; returns group 2 and the
rest of the text after the match. -/
def matchSourcePat (s : List Char) : Option (List Char × List Char) :=
  match ciConsume (("source").data) s with
  | none => none
  | some s1 =>
    let s2 := skipWsL s1
    let digits := s2.takeWhile Char.isDigit
    if digits = [] then none
    else
      let s3 := skipWsL (s2.drop digits.length)
      match s3 with
      | c :: s5 =>
        if c = ':' || c = '-' then capTail s5 else none
      | [] => none

/-- Non-overlapping scan of finditer: try the pattern at each position, and
resume after the end of each match. -/
def extractSourcesAux : Nat → List Char → List (List Char)
  | 0, _ => []
  | _ + 1, [] => []
  | fuel + 1, s@(_ :: rest) =>
    match matchSourcePat s with
    | some (cap, s7) => (pyStrip cap).take 120 :: extractSourcesAux fuel s7
    | none => extractSourcesAux fuel rest

/-- _extract_sources_from_text: every Source-N snippet, stripped and truncated
to 120 characters. -/
def extract_sources_from_text (text : List Char) : List (List Char) :=
  extractSourcesAux (text.length + 1) text

/-! ## The ask endpoint after the model call (app.py lines 249-346) -/

/-- Python str() of a parsed JSON value, as used on the elements of the
structured sources list (faithful for strings and scalars; containers are
approximated by a JSON-style rendering). -/
def jvalPyStr : JVal → List Char
  | .jnull => ("None").data
  | .jbool true => ("True").data
  | .jbool false => ("False").data
  | .jnum z =>
    if z < 0 then '-' :: (Nat.toDigits 10 z.natAbs) else Nat.toDigits 10 z.natAbs
  | .jstr s => s
  | .jarr _ => ("[...]").data
  | .jobj _ => ("\x7b...\x7d").data

/-- dict.get on a parsed JSON object. -/
def jget (kvs : List (List Char × JVal)) (key : List Char) : Option JVal :=
  (kvs.find? (fun kv => kv.1 = key)).map (fun kv => kv.2)

/-- The informal fallback sources built from the retrieved chunks
(app.py lines 333-338). -/
def fallbackSources (retrieved : List (List Char)) : List (List Char) :=
  (retrieved.take 5).enum.map (fun p =>
    ("Source ").data ++ Nat.toDigits 10 (p.1 + 1) ++ (": ").data ++
      (pyStrip (p.2.map (fun ch => if ch = '\n' then ' ' else ch))).take 120)

/-- The JSON body the ask endpoint returns on success. -/
structure AskOut where
  answer : List Char
  structured : Option JVal
  sources : List (List Char)
  raw : List Char

/-- An HTTP-level ask outcome: an error status with a message, or 200 + body. -/
inductive AskResult where
  | err : Nat → List Char → AskResult
  | ok : AskOut → AskResult

/-- The structured branch (app.py lines 310-328).  structured.get on a parsed
non-object raises and is turned into a 500 by the handler's except clause. -/
def askStructuredBranch (raw : List Char) (structured : JVal) (s : Int) : AskResult :=
  match structured with
  | .jobj kvs =>
    let natural0 : List Char := if s > 0 then pyStrip (raw.take s.toNat) else []
    let natural : List Char :=
      if natural0 = [] then
        match jget kvs (("answer").data) with
        | some (.jstr a) => pyStrip a
        | _ => []
      else natural0
    let sources : List (List Char) :=
      match jget kvs (("sources").data) with
      | some (.jarr l) => l.map (fun v => (jvalPyStr v).take 120)
      | _ => []
    .ok ⟨natural, some structured, sources, raw⟩
  | _ => .err 500 (("Server error").data)

/-- ask (app.py lines 299-346) from the model reply on: empty / missing reply
gives 502; a parsed JSON span gives the structured branch; otherwise the raw
reply is returned with heuristically recovered sources. -/
def ask_after_model (raw : Option (List Char)) (retrieved : List (List Char)) :
    AskResult :=
  match raw with
  | none => .err 502 (("No response from LLM (check Ollama server).").data)
  | some r =>
    if pyStrip r = [] then .err 502 (("No response from LLM (check Ollama server).").data)
    else
      match extract_json_span r with
      | (some structured, s, _) => askStructuredBranch r structured s
      | (none, _, _) =>
        let heuristic := extract_sources_from_text r
        let sources :=
          if heuristic = [] && !retrieved.isEmpty then fallbackSources retrieved
          else heuristic
        .ok ⟨pyStrip r, none, sources, r⟩

/-! ## Index normalization and chunk retrieval (app.py lines 213-246, 281-286) -/

/-- The possible shapes search_index's result is defensively normalized from:
None, a flat id array, or an (ids, distances) pair. -/
inductive SearchRet where
  | nothing : SearchRet
  | arr : List Int → SearchRet
  | pair : List Int → List ℝ → SearchRet

/-- _normalize_and_extract_indices: flatten whatever came back into a plain
list of integers (None gives [], a pair contributes its id component). -/
def normalize_and_extract_indices : SearchRet → List Int
  | .nothing => []
  | .arr l => l
  | .pair ids _ => ids

/-- app.py line 286: keep only indices in [0, len(chunks)) and look them up. -/
def retrieveChunks (chunks : List (List Char)) (inds_list : List Int) :
    List (List Char) :=
  (inds_list.filter (fun i => decide (0 ≤ i) && decide (i < (chunks.length : Int)))).map
    (fun i => chunks.getD i.toNat [])

/-! ## Model client (ollama_utils.py) -/

/-- query_ollama_subprocess (lines 42-71) given the subprocess outcome: None
models a timeout or spawn failure; otherwise (stdout, stderr, returncode).
A nonzero exit code gives None, else the stripped stdout. -/
def query_ollama_subprocess (proc : Option (List Char × List Char × Int)) :
    Option (List Char) :=
  match proc with
  | none => none
  | some (out, _, code) => if code ≠ 0 then none else some (pyStrip out)

/-- query_ollama (lines 73-91) over the two collaborator outcomes.  The API
result is None on connection failure / error, else a string (the or-chain in
query_ollama_api returns the empty string when no key is truthy; non-string
truthy payloads, which the code stringifies, are outside the model).  The
Bool records whether the subprocess fallback was invoked. -/
def query_ollama_core (apiRes : Option (List Char))
    (proc : Option (List Char × List Char × Int)) : Option (List Char) × Bool :=
  match apiRes with
  | some s => if s = [] then (query_ollama_subprocess proc, true)
      else (some (pyStrip s), false)
  | none => (query_ollama_subprocess proc, true)

def query_ollama (apiRes : Option (List Char))
    (proc : Option (List Char × List Char × Int)) : Option (List Char) :=
  (query_ollama_core apiRes proc).1

/-! ## greet (app.py lines 32-39) -/

def defaultGreeting : List Char := ("👋 Hi! Upload a PDF to get started.").data

/-- The behaviours the model client can exhibit as seen from greet: raise, or
return an optional string. -/
inductive ModelOutcome where
  | raises : ModelOutcome
  | returns : Option (List Char) → ModelOutcome

/-- greet: on any exception the canned greeting is returned; otherwise the
reply (with None / empty collapsing to the empty string via the or-default),
always with HTTP status 200. -/
def greet (o : ModelOutcome) : Nat × List Char :=
  match o with
  | .raises => (200, defaultGreeting)
  | .returns r => (200, (r.getD []))

/-! ## upload_pdf (app.py lines 42-74) -/

/-- The global session state: chunks and faiss_index (None before any upload). -/
structure Session where
  chunks : Option (List (List Char))
  findex : Option FaissIndexIP

/-- The HTTP outcome of an upload request. -/
inductive UploadResp where
  | noFile : UploadResp
  | failed : List Char → UploadResp
  | ok : Nat → UploadResp

/-- upload_pdf over the fallible collaborators: pdfR is the outcome of
pdf_to_chunks on the saved file, encodeR the outcome of loading the embedding
model and encoding the chunks.  Note the chunks global is assigned as soon as
chunking succeeds, before embedding is attempted. -/
noncomputable def upload_pdf (st : Session) (filePresent : Bool)
    (pdfR : Except (List Char) (List (List Char)))
    (encodeR : List (List Char) → Except (List Char) (List (List ℝ))) :
    Session × UploadResp :=
  if !filePresent then (st, .noFile)
  else
    match pdfR with
    | .error e => (st, .failed e)
    | .ok cs =>
      match encodeR cs with
      | .error e => (⟨some cs, st.findex⟩, .failed e)
      | .ok embeds => (⟨some cs, some (build_faiss_index embeds)⟩, .ok cs.length)

/-! ## Claim statements -/

/-- Amended C1 window property: with chunk_size > overlap >= 0, chunk j is the
join of words[j*step : j*step+chunk_size] (step = chunk_size - overlap); the
number of chunks is ceil(len/step); a window that fits entirely has exactly
chunk_size words; and a full chunk shares its last overlap words with the
prefix of the next chunk. -/
def c1Prop (words : List (List Char)) (cs ov : Nat) : Prop :=
  let step := cs - ov
  let out := pdf_to_chunks_words words (cs : Int) (ov : Int)
  out.length = numChunksSpec words.length step ∧
  (∀ j, j < out.length → out.getD j [] = joinSpace (sliceN words (j * step) cs)) ∧
  (∀ j, j * step + cs ≤ words.length → (sliceN words (j * step) cs).length = cs) ∧
  (∀ j, j + 1 < out.length → j * step + cs ≤ words.length →
    (sliceN words (j * step) cs).drop step = (sliceN words ((j + 1) * step) cs).take ov ∧
    ((sliceN words (j * step) cs).drop step).length = ov)

/-- Amended C2 retrieval property: the search row has length top_k; its first
min(top_k, n) entries are distinct valid indices of stored chunks, in
non-increasing order of cosine similarity to the query, and they dominate all
indices left out; the remainder is -1 padding. -/
def c2Prop (embeds : List (List ℝ)) (q : List ℝ) (k : Nat) : Prop :=
  let res := search_index (build_faiss_index embeds) q k
  let n := embeds.length
  let m := min k n
  let valid := res.take m
  let cos : Int → ℝ := fun i => cosSim q (embeds.getD i.toNat [])
  res.length = k ∧
  (∀ i ∈ valid, 0 ≤ i ∧ i.toNat < n) ∧
  valid.Nodup ∧
  valid.Pairwise (fun a b => cos b ≤ cos a) ∧
  (∀ j : Nat, j < n → (j : Int) ∉ valid → ∀ i ∈ valid, cos (j : Int) ≤ cos i) ∧
  res.drop m = List.replicate (k - n) (-1)

/-- Soundness of the span extractor (amended C3): a successful extraction
returns a span whose (possibly stripped) slice parses to the returned value;
a failed extraction always carries the span (-1, -1). -/
def extractSound (text : List Char) : Prop :=
  match extract_json_span text with
  | (some v, s, e) => ∃ sn en : Nat, s = (sn : Int) ∧ e = (en : Int) ∧ sn < en ∧
      (jsonLoads (pyStrip (sliceN text sn (en - sn))) = some v ∨
       jsonLoads (sliceN text sn (en - sn)) = some v)
  | (none, s, e) => s = -1 ∧ e = -1

/-- Amended C4 upload transition property: success replaces both globals; a
chunking failure (or missing file) leaves both untouched; an embedding or
indexing failure after successful chunking leaves the NEW chunks paired with
the OLD index. -/
def c4Prop (st : Session) (filePresent : Bool)
    (pdfR : Except (List Char) (List (List Char)))
    (encodeR : List (List Char) → Except (List Char) (List (List ℝ))) : Prop :=
  let r := upload_pdf st filePresent pdfR encodeR
  (filePresent = false → r = (st, .noFile)) ∧
  (∀ e, filePresent = true → pdfR = .error e → r = (st, .failed e)) ∧
  (∀ cs e, filePresent = true → pdfR = .ok cs → encodeR cs = .error e →
    r = (⟨some cs, st.findex⟩, .failed e)) ∧
  (∀ cs embeds, filePresent = true → pdfR = .ok cs → encodeR cs = .ok embeds →
    r = (⟨some cs, some (build_faiss_index embeds)⟩, .ok cs.length))

/-- C6 property: the API result, when a non-empty string, is returned stripped
and the subprocess is not invoked; the fallback fires exactly on a None/empty
API result; and None comes back only when the API result was falsy and the
subprocess also failed. -/
def c6Prop (apiRes : Option (List Char))
    (proc : Option (List Char × List Char × Int)) : Prop :=
  (∀ s, apiRes = some s → s ≠ [] →
    query_ollama apiRes proc = some (pyStrip s) ∧ (query_ollama_core apiRes proc).2 = false) ∧
  ((query_ollama_core apiRes proc).2 = true ↔ (apiRes = none ∨ apiRes = some [])) ∧
  (query_ollama apiRes proc = none ↔
    ((apiRes = none ∨ apiRes = some []) ∧ query_ollama_subprocess proc = none))

/-- The C3 counterexample reply: an unparseable first brace span followed by a
perfectly parseable JSON object. -/
def cexText : List Char := ("\x7bx\x7d \x7b\"a\": 1\x7d").data

/-! ## Theorems: slices, joins and the chunking window (claims C1, C10) -/

theorem pySlice_natCast (xs : List α) (i cs : Nat) :
    pySlice xs (i : Int) ((i : Int) + (cs : Int)) = sliceN xs i cs := by
  unfold pySlice sliceN
  have h1 : ¬ ((i : Int) < 0) := by omega
  have h3 : ((i : Int) + (cs : Int)) = ((i + cs : Nat) : Int) := by push_cast; ring
  have h2 : ¬ (((i + cs : Nat) : Int) < 0) := by omega
  simp only [h3, if_neg h1, if_neg h2, Int.toNat_natCast]
  rcases le_or_lt xs.length i with hle | hlt
  · have hd1 : xs.drop (min i xs.length) = [] := by
      simp [List.drop_eq_nil_iff, le_min_iff, hle]
    have hd2 : xs.drop i = [] := by simp [List.drop_eq_nil_iff, hle]
    simp [hd1, hd2]
  · have hmin : min i xs.length = i := by omega
    rw [hmin]
    rw [List.take_eq_take]
    simp [List.length_drop]
    omega

theorem sliceN_length (xs : List α) (i cs : Nat) :
    (sliceN xs i cs).length = min cs (xs.length - i) := by
  simp [sliceN]

theorem sliceN_subset (xs : List α) (i cs : Nat) :
    ∀ a ∈ sliceN xs i cs, a ∈ xs := by
  intro a ha
  unfold sliceN at ha
  exact List.mem_of_mem_drop (List.mem_of_mem_take ha)

theorem joinSpace_cons_structure (w : List Char) (t : List (List Char)) :
    ∃ z, joinSpace (w :: t) = w ++ z := by
  cases t with
  | nil => exact ⟨[], by simp [joinSpace]⟩
  | cons y ys => exact ⟨' ' :: joinSpace (y :: ys), by simp [joinSpace, List.intersperse]⟩

theorem pyStrip_ne_nil_of_head (c : Char) (tail : List Char)
    (hc : pyIsSpace c = false) : pyStrip (c :: tail) ≠ [] := by
  unfold pyStrip
  have h1 : List.dropWhile pyIsSpace (c :: tail) = c :: tail := by
    rw [List.dropWhile_cons, hc]; simp
  rw [h1]
  intro hcontra
  rw [List.reverse_eq_nil_iff, List.dropWhile_eq_nil_iff] at hcontra
  have := hcontra c (List.mem_reverse.mpr (List.mem_cons_self c tail))
  rw [hc] at this
  exact Bool.false_ne_true this

theorem strip_joinSpace_ne_nil (ws : List (List Char)) (hne : ws ≠ [])
    (htok : ∀ w ∈ ws, IsTokenB w = true) : pyStrip (joinSpace ws) ≠ [] := by
  obtain ⟨w, t, rfl⟩ : ∃ w t, ws = w :: t := by
    cases ws with
    | nil => exact absurd rfl hne
    | cons a b => exact ⟨a, b, rfl⟩
  have hw := htok w (List.mem_cons_self w t)
  unfold IsTokenB at hw
  obtain ⟨c, w', rfl⟩ : ∃ c w', w = c :: w' := by
    cases w with
    | nil => simp at hw
    | cons a b => exact ⟨a, b, rfl⟩
  have hc : pyIsSpace c = false := by
    simp [List.all_cons] at hw
    simpa using hw.1
  obtain ⟨z, hz⟩ := joinSpace_cons_structure (c :: w') t
  rw [hz]
  exact pyStrip_ne_nil_of_head c (w' ++ z) hc

theorem numChunksSpec_zero (step : Nat) (h : 0 < step) : numChunksSpec 0 step = 0 := by
  unfold numChunksSpec
  exact Nat.div_eq_of_lt (by omega)

theorem numChunksSpec_succ (m step : Nat) (hm : 0 < m) (hstep : 0 < step) :
    numChunksSpec m step = numChunksSpec (m - step) step + 1 := by
  unfold numChunksSpec
  rcases le_or_lt m step with hle | hlt
  · have h1 : m - step = 0 := by omega
    rw [h1]
    have h2 : (0 + step - 1) / step = 0 := Nat.div_eq_of_lt (by omega)
    rw [h2]
    exact Nat.div_eq_of_lt_le (by omega) (by omega)
  · have h3 : m + step - 1 = (m - step + step - 1) + step := by omega
    rw [h3, Nat.add_div_right _ hstep]

theorem chunkLoop_window (words : List (List Char)) (cs step : Nat)
    (hcs : 0 < cs) (hstep : 0 < step)
    (htok : ∀ w ∈ words, IsTokenB w = true) :
    ∀ fuel i, words.length - i < fuel →
      chunkLoop words (cs : Int) (step : Int) fuel i =
        some ((List.range (numChunksSpec (words.length - i) step)).map
          (fun j => joinSpace (sliceN words (i + j * step) cs))) := by
  intro fuel
  induction fuel with
  | zero => intro i h; omega
  | succ fuel ih =>
    intro i hfi
    rw [chunkLoop]
    by_cases hin : i < words.length
    · have hfuel' : words.length - (i + (step : Int).toNat) < fuel := by
        rw [Int.toNat_natCast]
        omega
      have hsle : ¬ ((step : Int) ≤ 0) := by omega
      rw [if_pos hin, if_neg hsle, Int.toNat_natCast, ih (i + step) (by omega)]
      rw [pySlice_natCast]
      have hne : pyStrip (joinSpace (sliceN words i cs)) ≠ [] := by
        apply strip_joinSpace_ne_nil
        · apply List.ne_nil_of_length_pos
          rw [sliceN_length]
          omega
        · intro w hw
          exact htok w (sliceN_subset words i cs w hw)
      simp only [if_neg hne]
      congr 1
      rw [numChunksSpec_succ (words.length - i) step (by omega) hstep]
      have harith : words.length - (i + step) = words.length - i - step := by omega
      rw [harith, List.range_succ_eq_map, List.map_cons, List.map_map]
      congr 1
      · have h00 : i + 0 * step = i := by omega
        rw [h00]
      · apply List.map_congr_left
        intro j _
        simp only [Function.comp_apply]
        have harg : i + Nat.succ j * step = i + step + j * step := by
          simp only [Nat.succ_eq_add_one]
          ring
        rw [harg]
    · rw [if_neg hin]
      have h0 : words.length - i = 0 := by omega
      rw [h0, numChunksSpec_zero step hstep]
      simp

theorem pdf_to_chunks_words_window (words : List (List Char)) (cs ov : Nat)
    (hov : ov < cs) (htok : ∀ w ∈ words, IsTokenB w = true) :
    pdf_to_chunks_words words (cs : Int) (ov : Int) =
      (List.range (numChunksSpec words.length (cs - ov))).map
        (fun j => joinSpace (sliceN words (j * (cs - ov)) cs)) := by
  unfold pdf_to_chunks_words
  have hstepEq : stepOf (cs : Int) (ov : Int) = ((cs - ov : Nat) : Int) := by
    unfold stepOf
    have hlt : (ov : Int) < (cs : Int) := by exact_mod_cast hov
    rw [if_pos hlt]
    omega
  rw [hstepEq,
    chunkLoop_window words cs (cs - ov) (by omega) (by omega) htok (words.length + 1) 0
      (by omega)]
  simp only [Option.getD_some, Nat.sub_zero]
  apply List.map_congr_left
  intro j _
  have h0 : 0 + j * (cs - ov) = j * (cs - ov) := by omega
  rw [h0]

/-- Claim C1 (amended): for chunk_size > overlap >= 0 and a token word list,
chunk j is the join of the window words[j*step : j*step+chunk_size], the
chunks enumerate all these windows, a window that fits inside the word list
has exactly chunk_size words, and a full chunk shares exactly its last
overlap words with the next chunk; trailing windows (not only the very last)
may be shorter than chunk_size. -/
theorem C1_amended_window (words : List (List Char)) (cs ov : Nat)
    (hov : ov < cs) (htok : ∀ w ∈ words, IsTokenB w = true) :
    c1Prop words cs ov := by
  have hwin := pdf_to_chunks_words_window words cs ov hov htok
  dsimp only [c1Prop]
  refine ⟨?_, ?_, ?_, ?_⟩
  · rw [hwin]
    simp
  · intro j hj
    rw [hwin] at hj ⊢
    rw [List.length_map, List.length_range] at hj
    rw [List.getD_eq_getElem _ _ (by simpa using hj)]
    simp
  · intro j hle
    rw [sliceN_length]
    omega
  · intro j _ hle
    constructor
    · unfold sliceN
      rw [List.drop_take, List.drop_drop, List.take_take]
      have h1 : cs - (cs - ov) = ov := by omega
      have h2 : min ov cs = ov := by omega
      have h3 : j * (cs - ov) + (cs - ov) = (j + 1) * (cs - ov) := by ring
      rw [h1, h2, h3]
    · rw [List.length_drop, sliceN_length]
      omega

/-- Witness: C1_amended_window applied at words = [a, b, c], chunk_size 2,
overlap 1. -/
theorem C1_amended_window_witness :
    (1 < 2 ∧ ∀ w ∈ [['a'], ['b'], ['c']], IsTokenB w = true) ∧
      c1Prop [['a'], ['b'], ['c']] 2 1 :=
  ⟨⟨by decide, by decide⟩,
    C1_amended_window [['a'], ['b'], ['c']] 2 1 (by decide) (by decide)⟩

/-- Counterexample to C1 as stated: with words = [a, b, c, d], chunk_size 5,
overlap 2 (so step 3), the loop yields two chunks; chunk 0 is not the last
chunk but its window [0, 5) holds only 4 words, not chunk_size = 5, and the
region shared by the two consecutive windows has 1 word, not overlap = 2. -/
theorem C1_counterexample :
    pdf_to_chunks_words [['a'], ['b'], ['c'], ['d']] 5 2 =
      [joinSpace (sliceN [['a'], ['b'], ['c'], ['d']] 0 5),
       joinSpace (sliceN [['a'], ['b'], ['c'], ['d']] 3 5)] ∧
    (pdf_to_chunks_words [['a'], ['b'], ['c'], ['d']] 5 2).length = 2 ∧
    (sliceN ([['a'], ['b'], ['c'], ['d']] : List (List Char)) 0 5).length = 4 ∧
    ((sliceN ([['a'], ['b'], ['c'], ['d']] : List (List Char)) 0 5).drop 3).length = 1 := by
  decide

theorem chunkLoop_total (words : List (List Char)) (cs step : Int) :
    ∀ fuel i, words.length - i < fuel →
      ∃ r, chunkLoop words cs step fuel i = some r ∧ (step ≤ 0 → r.length ≤ 1) := by
  intro fuel
  induction fuel with
  | zero => intro i h; omega
  | succ fuel ih =>
    intro i hfi
    rw [chunkLoop]
    by_cases hin : i < words.length
    · rw [if_pos hin]
      by_cases hs : step ≤ 0
      · rw [if_pos hs]
        refine ⟨_, rfl, fun _ => ?_⟩
        split <;> simp
      · rw [if_neg hs]
        have hst : 1 ≤ step.toNat := by omega
        obtain ⟨r, hr, _⟩ := ih (i + step.toNat) (by omega)
        rw [hr]
        exact ⟨_, rfl, fun hcontra => absurd hcontra hs⟩
    · rw [if_neg hin]
      exact ⟨[], rfl, fun _ => by simp⟩

theorem chunkLoop_mono (words : List (List Char)) (cs step : Int) :
    ∀ fuel i r, chunkLoop words cs step fuel i = some r →
      chunkLoop words cs step (fuel + 1) i = some r := by
  intro fuel
  induction fuel with
  | zero => intro i r h; simp [chunkLoop] at h
  | succ fuel ih =>
    intro i r h
    rw [chunkLoop] at h
    rw [chunkLoop]
    by_cases hin : i < words.length
    · rw [if_pos hin] at h ⊢
      by_cases hs : step ≤ 0
      · rw [if_pos hs] at h ⊢
        exact h
      · rw [if_neg hs] at h ⊢
        cases hrec : chunkLoop words cs step fuel (i + step.toNat) with
        | none => rw [hrec] at h; exact absurd h (by simp)
        | some r' =>
          rw [hrec] at h
          rw [ih _ _ hrec]
          exact h
    · rw [if_neg hin] at h ⊢
      exact h

theorem chunkLoop_fuel_ge (words : List (List Char)) (cs step : Int) (fuel0 i : Nat)
    (r : List (List Char)) (h : chunkLoop words cs step fuel0 i = some r) :
    ∀ d, chunkLoop words cs step (fuel0 + d) i = some r := by
  intro d
  induction d with
  | zero => exact h
  | succ d ihd => exact chunkLoop_mono words cs step (fuel0 + d) i r ihd

/-- Claim C10: the chunking loop terminates on every word list and every
parameter choice: one fixed result is reached under any sufficient fuel;
when chunk_size <= overlap the step falls back to chunk_size; and when the
step is nonpositive the loop breaks after at most one appended chunk. -/
theorem C10_loop_terminates (words : List (List Char)) (cs ov : Int) :
    ∃ r, pdf_to_chunks_words words cs ov = r ∧
      (∀ fuel, words.length < fuel →
        chunkLoop words cs (stepOf cs ov) fuel 0 = some r) ∧
      (cs ≤ ov → stepOf cs ov = cs) ∧
      (stepOf cs ov ≤ 0 → r.length ≤ 1) := by
  obtain ⟨r, hr, hlen⟩ :=
    chunkLoop_total words cs (stepOf cs ov) (words.length + 1) 0 (by omega)
  refine ⟨r, ?_, ?_, ?_, hlen⟩
  · unfold pdf_to_chunks_words
    rw [hr]
    rfl
  · intro fuel hfuel
    have hsplit : fuel = (words.length + 1) + (fuel - words.length - 1) := by omega
    rw [hsplit]
    exact chunkLoop_fuel_ge words cs (stepOf cs ov) (words.length + 1) 0 r hr _
  · intro hle
    unfold stepOf
    rw [if_neg (by omega)]

/-- Witness: C10_loop_terminates applied at words = [a], chunk_size 0,
overlap 0 (a degenerate choice with nonpositive step). -/
theorem C10_loop_terminates_witness :
    ∃ r, pdf_to_chunks_words [['a']] 0 0 = r ∧
      (∀ fuel, ([['a']] : List (List Char)).length < fuel →
        chunkLoop [['a']] 0 (stepOf 0 0) fuel 0 = some r) ∧
      ((0 : Int) ≤ 0 → stepOf 0 0 = 0) ∧
      (stepOf 0 0 ≤ 0 → r.length ≤ 1) :=
  C10_loop_terminates [['a']] 0 0

/-! ## Theorems: normalization and cosine similarity (claims C5, C2) -/

theorem dotL_nil_left (v : List ℝ) : dotL [] v = 0 := by simp [dotL]

theorem dotL_nil_right (u : List ℝ) : dotL u [] = 0 := by
  cases u <;> simp [dotL]

theorem dotL_cons (x y : ℝ) (u v : List ℝ) :
    dotL (x :: u) (y :: v) = x * y + dotL u v := by
  simp [dotL]

theorem dotL_map_div (u v : List ℝ) (a b : ℝ) :
    dotL (u.map (· / a)) (v.map (· / b)) = dotL u v / (a * b) := by
  induction u generalizing v with
  | nil => simp [dotL_nil_left]
  | cons x u ih =>
    cases v with
    | nil => simp [dotL_nil_right]
    | cons y v =>
      simp only [List.map_cons, dotL_cons, ih]
      rw [div_mul_div_comm, div_add_div_same]

/-- The central algebraic fact behind C5: the inner product of the
L2-normalized vectors is the cosine similarity of the originals. -/
theorem dotL_normalize_eq_cosSim (u v : List ℝ) :
    dotL (normalizeL2 u) (normalizeL2 v) = cosSim u v := by
  unfold normalizeL2 cosSim l2norm
  rw [dotL_map_div]

theorem dotL_self_nonneg (v : List ℝ) : 0 ≤ dotL v v := by
  induction v with
  | nil => simp [dotL_nil_left]
  | cons x t ih =>
    rw [dotL_cons]
    exact add_nonneg (mul_self_nonneg x) ih

theorem dotL_self_pos (v : List ℝ) (h : ∃ c ∈ v, c ≠ 0) : 0 < dotL v v := by
  induction v with
  | nil => simp at h
  | cons x t ih =>
    rw [dotL_cons]
    rcases h with ⟨c, hc, hcne⟩
    rcases List.mem_cons.mp hc with rfl | hct
    · exact add_pos_of_pos_of_nonneg (mul_self_pos.mpr hcne) (dotL_self_nonneg t)
    · exact add_pos_of_nonneg_of_pos (mul_self_nonneg x) (ih ⟨c, hct, hcne⟩)

theorem l2norm_pos (v : List ℝ) (h : ∃ c ∈ v, c ≠ 0) : 0 < l2norm v := by
  unfold l2norm
  exact Real.sqrt_pos.mpr (dotL_self_pos v h)

/-- Claim C5: the index stores the L2-normalized embeddings, and the score row
a search computes against a (nonzero) query equals the cosine similarities of
the original unnormalized vectors. -/
theorem C5_cosine_scores (embeds : List (List ℝ)) (q : List ℝ)
    (_hq : ∃ c ∈ q, c ≠ 0) (_hv : ∀ v ∈ embeds, ∃ c ∈ v, c ≠ 0) :
    (build_faiss_index embeds).vecs = embeds.map normalizeL2 ∧
    scoresOf (build_faiss_index embeds) q = embeds.map (fun v => cosSim q v) := by
  refine ⟨rfl, ?_⟩
  unfold scoresOf build_faiss_index
  rw [List.map_map]
  apply List.map_congr_left
  intro v _
  exact dotL_normalize_eq_cosSim q v

/-- Witness: C5_cosine_scores applied at embeds = [[3, 4]], q = [1, 0]. -/
theorem C5_cosine_scores_witness :
    ((∃ c ∈ [(1 : ℝ), 0], c ≠ 0) ∧ (∀ v ∈ [[(3 : ℝ), 4]], ∃ c ∈ v, c ≠ 0)) ∧
    ((build_faiss_index [[(3 : ℝ), 4]]).vecs = [[(3 : ℝ), 4]].map normalizeL2 ∧
      scoresOf (build_faiss_index [[(3 : ℝ), 4]]) [(1 : ℝ), 0] =
        [[(3 : ℝ), 4]].map (fun v => cosSim [(1 : ℝ), 0] v)) :=
  ⟨⟨⟨1, by simp, one_ne_zero⟩, by
      intro v hv
      simp only [List.mem_singleton] at hv
      exact ⟨3, by simp [hv], by norm_num⟩⟩,
    C5_cosine_scores [[(3 : ℝ), 4]] [(1 : ℝ), 0]
      ⟨1, by simp, one_ne_zero⟩
      (by
        intro v hv
        simp only [List.mem_singleton] at hv
        exact ⟨3, by simp [hv], by norm_num⟩)⟩

theorem scoresOf_length (embeds : List (List ℝ)) (q : List ℝ) :
    (scoresOf (build_faiss_index embeds) q).length = embeds.length := by
  simp [scoresOf, build_faiss_index]

theorem scores_getD (embeds : List (List ℝ)) (q : List ℝ) (j : Nat)
    (hj : j < embeds.length) :
    (scoresOf (build_faiss_index embeds) q).getD j 0 = cosSim q (embeds.getD j []) := by
  rw [List.getD_eq_getElem _ _ (by rw [scoresOf_length]; exact hj),
      List.getD_eq_getElem _ _ hj]
  simp [scoresOf, build_faiss_index, dotL_normalize_eq_cosSim]

theorem mem_enum_facts (scores : List ℝ) (p : Nat × ℝ) (hp : p ∈ scores.enum) :
    p.1 < scores.length ∧ p.2 = scores.getD p.1 0 := by
  rw [List.mem_enum_iff_getElem?] at hp
  have hlt : p.1 < scores.length := by
    by_contra hge
    rw [List.getElem?_eq_none (by omega)] at hp
    exact Option.noConfusion hp
  refine ⟨hlt, ?_⟩
  rw [List.getElem?_eq_getElem hlt] at hp
  rw [List.getD_eq_getElem _ _ hlt]
  exact (Option.some.inj hp).symm

theorem enum_mem_of_lt (scores : List ℝ) (j : Nat) (hj : j < scores.length) :
    (j, scores.getD j 0) ∈ scores.enum := by
  rw [List.mem_enum_iff_getElem?]
  rw [List.getElem?_eq_getElem hj, List.getD_eq_getElem _ _ hj]

/-- Claim C2 (amended): the search row has length top_k, its first
min(top_k, n) entries are distinct indices of stored chunks ordered by
non-increasing cosine similarity and dominating every stored index left out,
and the remaining entries are the -1 padding faiss emits when fewer than
top_k vectors are stored. -/
theorem C2_amended_topk (embeds : List (List ℝ)) (q : List ℝ) (k : Nat)
    (_hq : ∃ c ∈ q, c ≠ 0) (_hv : ∀ v ∈ embeds, ∃ c ∈ v, c ≠ 0) :
    c2Prop embeds q k := by
  dsimp only [c2Prop]
  have hsl : (scoresOf (build_faiss_index embeds) q).length = embeds.length :=
    scoresOf_length embeds q
  set scores := scoresOf (build_faiss_index embeds) q with hscores
  set pairs := scores.enum with hpairs
  set sorted := List.insertionSort better pairs with hsortedDef
  have hperm : sorted.Perm pairs := List.perm_insertionSort better pairs
  have hsort : List.Sorted better sorted := List.sorted_insertionSort better pairs
  have hslen : sorted.length = embeds.length := by
    rw [hperm.length_eq, hpairs, List.enum_length, hsl]
  have hsearch : search_index (build_faiss_index embeds) q k =
      (sorted.take k).map (fun p => (p.1 : Int)) ++
        List.replicate (k - embeds.length) (-1) := by
    rw [search_index, faissTopK, hsl]
  have hvlen : ((sorted.take k).map (fun p => ((p.1 : Nat) : Int))).length =
      min k embeds.length := by
    rw [List.length_map, List.length_take, hslen]
  have htake : (search_index (build_faiss_index embeds) q k).take (min k embeds.length) =
      (sorted.take k).map (fun p => (p.1 : Int)) := by
    rw [hsearch]
    exact List.take_left' hvlen
  have hfacts : ∀ p ∈ sorted, p.1 < embeds.length ∧ p.2 = scores.getD p.1 0 := by
    intro p hp
    have hp' : p ∈ pairs := hperm.mem_iff.mp hp
    have := mem_enum_facts scores p (hpairs ▸ hp')
    rw [hsl] at this
    exact this
  have hcos : ∀ p ∈ sorted, p.2 = cosSim q (embeds.getD p.1 []) := by
    intro p hp
    obtain ⟨hlt, heq⟩ := hfacts p hp
    rw [heq, hscores, scores_getD embeds q p.1 hlt]
  refine ⟨?_, ?_, ?_, ?_, ?_, ?_⟩
  · rw [hsearch]
    simp only [List.length_append, List.length_map, List.length_take,
      List.length_replicate, hslen]
    omega
  · rw [htake]
    intro i hi
    obtain ⟨p, hp, rfl⟩ := List.mem_map.mp hi
    have hps : p ∈ sorted := List.mem_of_mem_take hp
    obtain ⟨hlt, _⟩ := hfacts p hps
    exact ⟨by omega, by rw [Int.toNat_natCast]; exact hlt⟩
  · rw [htake]
    have h1 : (pairs.map Prod.fst).Nodup := by
      rw [hpairs, List.enum_map_fst]
      exact List.nodup_range _
    have h2 : (sorted.map Prod.fst).Nodup := ((hperm.map Prod.fst).nodup_iff).mpr h1
    have h3 : ((sorted.take k).map Prod.fst).Nodup := by
      rw [List.map_take]
      exact h2.sublist (List.take_sublist k (sorted.map Prod.fst))
    have h4 : (((sorted.take k).map Prod.fst).map (fun x : Nat => (x : Int))).Nodup :=
      h3.map Nat.cast_injective
    rw [List.map_map] at h4
    exact h4
  · rw [htake]
    rw [List.pairwise_map]
    have hsortk : (sorted.take k).Pairwise better :=
      hsort.sublist (List.take_sublist k sorted)
    refine hsortk.imp_of_mem ?_
    intro a b ha hb hab
    have hca := hcos a (List.mem_of_mem_take ha)
    have hcb := hcos b (List.mem_of_mem_take hb)
    rw [Int.toNat_natCast, Int.toNat_natCast, ← hca, ← hcb]
    rcases hab with h | ⟨h, _⟩
    · exact le_of_lt h
    · exact le_of_eq h.symm
  · rw [htake]
    intro j hj hnotin i hi
    have hjp : (j, scores.getD j 0) ∈ pairs := by
      rw [hpairs]
      exact enum_mem_of_lt scores j (by rw [hsl]; exact hj)
    have hjs : (j, scores.getD j 0) ∈ sorted := hperm.mem_iff.mpr hjp
    have hsplit : sorted = sorted.take k ++ sorted.drop k :=
      (List.take_append_drop k sorted).symm
    have hjdrop : (j, scores.getD j 0) ∈ sorted.drop k := by
      rcases List.mem_append.mp (hsplit ▸ hjs) with hcase | hcase
      · exact absurd (List.mem_map.mpr ⟨(j, scores.getD j 0), hcase, rfl⟩) hnotin
      · exact hcase
    have hcross := (List.pairwise_append.mp (hsplit ▸ hsort)).2.2
    obtain ⟨p, hp, rfl⟩ := List.mem_map.mp hi
    have hbet := hcross p hp (j, scores.getD j 0) hjdrop
    have hca := hcos p (List.mem_of_mem_take hp)
    have hcj : scores.getD j 0 = cosSim q (embeds.getD j []) := by
      rw [hscores, scores_getD embeds q j hj]
    rw [Int.toNat_natCast, Int.toNat_natCast, ← hca, ← hcj]
    rcases hbet with h | ⟨h, _⟩
    · exact le_of_lt h
    · exact le_of_eq h.symm
  · rw [hsearch]
    exact List.drop_left' hvlen

/-- Witness: C2_amended_topk applied at two stored unit vectors and a unit
query, top_k = 2. -/
theorem C2_amended_topk_witness :
    ((∃ c ∈ [(1 : ℝ), 0], c ≠ 0) ∧
      (∀ v ∈ [[(1 : ℝ), 0], [(0 : ℝ), 1]], ∃ c ∈ v, c ≠ 0)) ∧
    c2Prop [[(1 : ℝ), 0], [(0 : ℝ), 1]] [(1 : ℝ), 0] 2 :=
  ⟨⟨⟨1, by simp, one_ne_zero⟩, by
      intro v hv
      rcases List.mem_cons.mp hv with rfl | hv2
      · exact ⟨1, by simp, one_ne_zero⟩
      · rcases List.mem_singleton.mp hv2 with rfl
        exact ⟨1, by simp, one_ne_zero⟩⟩,
    C2_amended_topk [[(1 : ℝ), 0], [(0 : ℝ), 1]] [(1 : ℝ), 0] 2
      ⟨1, by simp, one_ne_zero⟩
      (by
        intro v hv
        rcases List.mem_cons.mp hv with rfl | hv2
        · exact ⟨1, by simp, one_ne_zero⟩
        · rcases List.mem_singleton.mp hv2 with rfl
          exact ⟨1, by simp, one_ne_zero⟩)⟩

/-- Counterexample to C2 as stated: with a single stored vector and the
default top_k = 3, the search row is [0, -1, -1]; the padding value -1 is
returned but is not the index of any stored chunk. -/
theorem C2_counterexample :
    search_index (build_faiss_index [[(1 : ℝ), 0]]) [(1 : ℝ), 0] 3 = [0, -1, -1] ∧
    (-1 : Int) ∈ search_index (build_faiss_index [[(1 : ℝ), 0]]) [(1 : ℝ), 0] 3 ∧
    ¬ (0 ≤ (-1 : Int)) := by
  refine ⟨rfl, ?_, by omega⟩
  have h : search_index (build_faiss_index [[(1 : ℝ), 0]]) [(1 : ℝ), 0] 3 =
      ([0, -1, -1] : List Int) := rfl
  rw [h]
  decide

/-! ## Theorems: JSON span extraction (claims C3, C7) -/

theorem markerExtract_sound (text : List Char) (v : JVal) (s e : Nat)
    (h : markerExtract text = some (v, s, e)) :
    s < e ∧ jsonLoads (pyStrip (sliceN text s (e - s))) = some v := by
  simp only [markerExtract] at h
  split at h
  · split at h
    · rename_i hgt
      split at h
      · rename_i v' hload
        simp only [Option.some.injEq, Prod.mk.injEq] at h
        obtain ⟨rfl, rfl, rfl⟩ := h
        exact ⟨by omega, hload⟩
      · exact absurd h (by simp)
    · exact absurd h (by simp)
  · exact absurd h (by simp)

theorem findLazyEnd_ge (text : List Char) :
    ∀ fuel e r, findLazyEnd text fuel e = some r → e ≤ r := by
  intro fuel
  induction fuel with
  | zero => intro e r h; simp [findLazyEnd] at h
  | succ fuel ih =>
    intro e r h
    rw [findLazyEnd] at h
    split at h
    · split at h
      · simp only [Option.some.injEq] at h
        omega
      · have := ih (e + 1) r h
        omega
    · exact absurd h (by simp)

theorem fencedSearchFrom_lt (text : List Char) :
    ∀ fuel m s e, fencedSearchFrom text fuel m = some (s, e) → s < e := by
  intro fuel
  induction fuel with
  | zero => intro m s e h; simp [fencedSearchFrom] at h
  | succ fuel ih =>
    intro m s e h
    rw [fencedSearchFrom] at h
    dsimp only at h
    split at h
    · split at h
      · split at h
        · split at h
          · rename_i e' hlazy
            simp only [Option.some.injEq, Prod.mk.injEq] at h
            obtain ⟨hp, he⟩ := h
            have hge := findLazyEnd_ge text (text.length + 1) _ e' hlazy
            omega
          · exact ih (m + 1) s e h
        · exact ih (m + 1) s e h
      · exact ih (m + 1) s e h
    · exact absurd h (by simp)

theorem fencedExtract_sound (text : List Char) (v : JVal) (s e : Nat)
    (h : fencedExtract text = some (v, s, e)) :
    s < e ∧ jsonLoads (sliceN text s (e - s)) = some v := by
  unfold fencedExtract at h
  cases hsearch : fencedSearch text with
  | none => rw [hsearch] at h; exact absurd h (by simp)
  | some p =>
    obtain ⟨s', e'⟩ := p
    rw [hsearch] at h
    dsimp only at h
    cases hload : jsonLoads (sliceN text s' (e' - s')) with
    | none => rw [hload] at h; exact absurd h (by simp)
    | some v' =>
      rw [hload] at h
      simp only [Option.some.injEq, Prod.mk.injEq] at h
      obtain ⟨rfl, rfl, rfl⟩ := h
      exact ⟨fencedSearchFrom_lt text (text.length + 1) 0 s' e' hsearch, hload⟩

theorem findBraceEnd_ge (text : List Char) :
    ∀ fuel i d r, findBraceEnd text fuel i d = some r → i ≤ r := by
  intro fuel
  induction fuel with
  | zero => intro i d r h; simp [findBraceEnd] at h
  | succ fuel ih =>
    intro i d r h
    rw [findBraceEnd] at h
    dsimp only at h
    by_cases hin : i < text.length
    · rw [if_pos hin] at h
      set d' := (if text.getD i ' ' = '\x7b' then d + 1
        else if text.getD i ' ' = '\x7d' then d - 1 else d) with hd'
      split at h
      · simp only [Option.some.injEq] at h
        omega
      · have := ih (i + 1) d' r h
        omega
    · rw [if_neg hin] at h
      exact absurd h (by simp)

theorem genericExtract_sound (text : List Char) (v : JVal) (s e : Nat)
    (h : genericExtract text = some (v, s, e)) :
    s < e ∧ jsonLoads (sliceN text s (e - s)) = some v := by
  unfold genericExtract at h
  cases hfind : pyFindFrom ['\x7b'] text 0 with
  | none => rw [hfind] at h; exact absurd h (by simp)
  | some first =>
    rw [hfind] at h
    dsimp only at h
    cases hbrace : findBraceEnd text (text.length + 1) first 0 with
    | none => rw [hbrace] at h; exact absurd h (by simp)
    | some endi =>
      rw [hbrace] at h
      dsimp only at h
      cases hload : jsonLoads (sliceN text first (endi + 1 - first)) with
      | none => rw [hload] at h; exact absurd h (by simp)
      | some v' =>
        rw [hload] at h
        dsimp only at h
        simp only [Option.some.injEq, Prod.mk.injEq] at h
        obtain ⟨rfl, rfl, rfl⟩ := h
        have := findBraceEnd_ge text (text.length + 1) first 0 endi hbrace
        exact ⟨by omega, hload⟩

/-- Claim C3 (amended): the parser tries, in order, a marker-delimited
candidate, the first fenced candidate, and the first balanced-brace span; a
successful extraction returns a valid span whose (for the marker path,
stripped) slice parses to the returned value, and any failure returns None
with span (-1, -1) - even when the reply contains a parseable JSON object
that is not the selected candidate. -/
theorem C3_extract_sound : ∀ text, extractSound text := by
  intro text
  unfold extractSound extract_json_span
  cases hm : markerExtract text with
  | some t =>
    obtain ⟨v, s, e⟩ := t
    obtain ⟨hse, hload⟩ := markerExtract_sound text v s e hm
    exact ⟨s, e, rfl, rfl, hse, Or.inl hload⟩
  | none =>
    cases hf : fencedExtract text with
    | some t =>
      obtain ⟨v, s, e⟩ := t
      obtain ⟨hse, hload⟩ := fencedExtract_sound text v s e hf
      exact ⟨s, e, rfl, rfl, hse, Or.inr hload⟩
    | none =>
      cases hg : genericExtract text with
      | some t =>
        obtain ⟨v, s, e⟩ := t
        obtain ⟨hse, hload⟩ := genericExtract_sound text v s e hg
        exact ⟨s, e, rfl, rfl, hse, Or.inr hload⟩
      | none => exact ⟨rfl, rfl⟩

/-- Counterexample to C3 as stated: the reply contains the parseable trailing
JSON object at span [4, 12), yet the parser returns None with (-1, -1),
because its one generic candidate is the first brace span, which fails to
parse. -/
theorem C3_counterexample :
    extract_json_span cexText = (none, -1, -1) ∧
    jsonLoads (sliceN cexText 4 8) = some (JVal.jobj [(['a'], JVal.jnum 1)]) :=
  ⟨rfl, rfl⟩

/-- Claim C7: when the model reply is non-empty but the span extractor finds
no JSON, the ask endpoint still succeeds, answering with the stripped raw
reply, a null structured field, and sources recovered from Source-N patterns
or as a fallback from the retrieved chunks. -/
theorem C7_raw_fallback (raw : List Char) (retrieved : List (List Char))
    (hne : pyStrip raw ≠ [])
    (hnoj : (extract_json_span raw).1 = none) :
    ask_after_model (some raw) retrieved =
      .ok ⟨pyStrip raw, none,
        (if extract_sources_from_text raw = [] && !retrieved.isEmpty
          then fallbackSources retrieved else extract_sources_from_text raw), raw⟩ := by
  unfold ask_after_model
  dsimp only
  rw [if_neg hne]
  rcases hx : extract_json_span raw with ⟨o, s, e⟩
  rw [hx] at hnoj
  dsimp only at hnoj
  subst hnoj
  rfl

/-- Witness: C7_raw_fallback applied at raw = hello with no retrieved chunks. -/
theorem C7_raw_fallback_witness :
    (pyStrip (("hello").data) ≠ [] ∧ (extract_json_span (("hello").data)).1 = none) ∧
    ask_after_model (some (("hello").data)) [] =
      .ok ⟨pyStrip (("hello").data), none,
        (if extract_sources_from_text (("hello").data) = [] &&
            !([] : List (List Char)).isEmpty
          then fallbackSources [] else extract_sources_from_text (("hello").data)),
        ("hello").data⟩ :=
  ⟨⟨by decide, rfl⟩, C7_raw_fallback (("hello").data) [] (by decide) rfl⟩

/-! ## Theorems: index normalization and retrieval safety (claim C8) -/

theorem search_index_length (db : List (List ℝ)) (q : List ℝ) (k : Nat) :
    (search_index (build_faiss_index db) q k).length = k := by
  unfold search_index faissTopK
  rw [List.length_append, List.length_map, List.length_take,
    (List.perm_insertionSort better _).length_eq, List.enum_length,
    List.length_replicate, scoresOf_length]
  omega

theorem retrieveChunks_length_le (chunks : List (List Char)) (inds : List Int) :
    (retrieveChunks chunks inds).length ≤ inds.length := by
  unfold retrieveChunks
  rw [List.length_map]
  exact List.length_filter_le _ _

theorem retrieveChunks_mem (chunks : List (List Char)) (inds : List Int) :
    ∀ c ∈ retrieveChunks chunks inds, c ∈ chunks := by
  intro c hc
  unfold retrieveChunks at hc
  obtain ⟨i, hi, rfl⟩ := List.mem_map.mp hc
  have hfi := List.of_mem_filter hi
  simp only [Bool.and_eq_true, decide_eq_true_eq] at hfi
  obtain ⟨h0, hlen⟩ := hfi
  rw [List.getD_eq_getElem _ _ (by omega : i.toNat < chunks.length)]
  exact List.getElem_mem _

/-- Claim C8: in ask, the indices coming back from the search are normalized
and filtered to the range [0, len(chunks)) before indexing, so the retrieval
is total, yields at most top_k chunks, and every retrieved element is one of
the session chunks (the -1 padding entries are filtered out, never indexed). -/
theorem C8_index_filter_safe (db : List (List ℝ)) (q : List ℝ) (k : Nat)
    (chunks : List (List Char)) :
    (retrieveChunks chunks (normalize_and_extract_indices
        (.arr (search_index (build_faiss_index db) q k)))).length ≤ k ∧
    (∀ c ∈ retrieveChunks chunks (normalize_and_extract_indices
        (.arr (search_index (build_faiss_index db) q k))), c ∈ chunks) ∧
    (∀ i ∈ normalize_and_extract_indices
        (.arr (search_index (build_faiss_index db) q k)),
      i < 0 → (retrieveChunks chunks [i]).length = 0) := by
  refine ⟨?_, ?_, ?_⟩
  · have h1 := retrieveChunks_length_le chunks (search_index (build_faiss_index db) q k)
    rw [search_index_length] at h1
    exact h1
  · exact retrieveChunks_mem chunks _
  · intro i _ hneg
    unfold retrieveChunks
    have hcond : ¬ ((decide (0 ≤ i) && decide (i < (chunks.length : Int))) = true) := by
      simp only [Bool.and_eq_true, decide_eq_true_eq]
      omega
    simp [List.filter, hcond]

/-! ## Theorems: model client fallback (claim C6) -/

/-- Claim C6: the model client returns the stripped API reply without invoking
the subprocess exactly when the API yields a non-empty string; the subprocess
fallback fires exactly on a None or empty API result; and None is returned
only when the API result was falsy and the subprocess also failed. -/
theorem C6_api_fallback (apiRes : Option (List Char))
    (proc : Option (List Char × List Char × Int)) : c6Prop apiRes proc := by
  dsimp only [c6Prop]
  refine ⟨?_, ?_, ?_⟩
  · intro s hs hne
    subst hs
    unfold query_ollama query_ollama_core
    dsimp only
    rw [if_neg hne]
    exact ⟨rfl, rfl⟩
  · constructor
    · intro h
      cases apiRes with
      | none => exact Or.inl rfl
      | some s =>
        by_cases hs : s = []
        · exact Or.inr (by rw [hs])
        · unfold query_ollama_core at h
          dsimp only at h
          rw [if_neg hs] at h
          exact absurd h (by simp)
    · intro h
      rcases h with rfl | rfl
      · rfl
      · rfl
  · constructor
    · intro h
      cases apiRes with
      | none => exact ⟨Or.inl rfl, h⟩
      | some s =>
        by_cases hs : s = []
        · subst hs
          exact ⟨Or.inr rfl, h⟩
        · unfold query_ollama query_ollama_core at h
          dsimp only at h
          rw [if_neg hs] at h
          exact absurd h (by simp)
    · intro h
      obtain ⟨hfalsy, hsub⟩ := h
      rcases hfalsy with rfl | rfl
      · exact hsub
      · exact hsub

/-- Witness: C6_api_fallback applied at a non-empty API reply. -/
theorem C6_api_fallback_witness :
    query_ollama (some [' ', 'h', 'i']) none = some (pyStrip [' ', 'h', 'i']) ∧
    (query_ollama_core (some [' ', 'h', 'i']) none).2 = false :=
  (C6_api_fallback (some [' ', 'h', 'i']) none).1 [' ', 'h', 'i'] rfl (by decide)

/-! ## Theorems: greet endpoint totality (claim C9) -/

/-- Claim C9: greet always answers HTTP 200 with a (string) greeting, for
every behaviour of the model client, an exception included; the exception
path yields the canned greeting. -/
theorem C9_greet_total :
    (∀ o : ModelOutcome, (greet o).1 = 200) ∧
    greet .raises = (200, defaultGreeting) := by
  refine ⟨?_, rfl⟩
  intro o
  cases o <;> rfl

/-! ## Theorems: upload session-state replacement (claim C4) -/

/-- Claim C4 (amended): a successful upload replaces both globals; a chunking
failure or a missing file leaves both untouched; but when chunking succeeds
and embedding or indexing then fails, the request completes with the NEW
chunks paired with the OLD index. -/
theorem C4_amended_upload (st : Session) (filePresent : Bool)
    (pdfR : Except (List Char) (List (List Char)))
    (encodeR : List (List Char) → Except (List Char) (List (List ℝ))) :
    c4Prop st filePresent pdfR encodeR := by
  dsimp only [c4Prop]
  refine ⟨?_, ?_, ?_, ?_⟩
  · intro hf
    subst hf
    rfl
  · intro e hf hp
    subst hf
    unfold upload_pdf
    rw [hp]
    rfl
  · intro cs e hf hp he
    subst hf
    unfold upload_pdf
    rw [hp]
    dsimp only
    rw [he]
    rfl
  · intro cs embeds hf hp he
    subst hf
    unfold upload_pdf
    rw [hp]
    dsimp only
    rw [he]
    rfl

/-- Witness: C4_amended_upload applied at a state holding an old document and
an upload whose chunking succeeds but whose embedding fails. -/
theorem C4_amended_upload_witness :
    c4Prop ⟨some [['o']], some (build_faiss_index [[(1 : ℝ)]])⟩ true
      (.ok [['n']]) (fun _ => .error ['e']) :=
  C4_amended_upload ⟨some [['o']], some (build_faiss_index [[(1 : ℝ)]])⟩ true
    (.ok [['n']]) (fun _ => .error ['e'])

/-- Counterexample to C4 as stated: chunking succeeds, embedding fails; the
request returns an error, yet the session now pairs the NEW chunks with the
OLD index, which C4 says never happens. -/
theorem C4_counterexample :
    (upload_pdf ⟨some [['o']], some (build_faiss_index [[(1 : ℝ)]])⟩ true
        (.ok [['n']]) (fun _ => .error ['e'])).1.chunks = some [['n']] ∧
    (upload_pdf ⟨some [['o']], some (build_faiss_index [[(1 : ℝ)]])⟩ true
        (.ok [['n']]) (fun _ => .error ['e'])).1.findex =
      some (build_faiss_index [[(1 : ℝ)]]) ∧
    (upload_pdf ⟨some [['o']], some (build_faiss_index [[(1 : ℝ)]])⟩ true
        (.ok [['n']]) (fun _ => .error ['e'])).2 = .failed ['e'] ∧
    some [['n']] ≠ some [['o']] :=
  ⟨rfl, rfl, rfl, by decide⟩
